import Mathlib

/-!
Verification of the invoice extraction and contract reconciliation template.

The reconciliation engine (candidate selection, match adjudication,
discrepancy comparison, record building, deduplicating storage) lives in the
repository's Python package; the repository snapshot here carries its README
documentation and the TypeScript UI.  The engine's data model and operations
are therefore modelled from the specification, while the UI hooks
(`useContractsLoader`, `removeContract`, `createClients`, `useMetadata`) are
embedded directly from the TypeScript source.
-/

namespace InvoiceReconcile

/-- Severity levels of a discrepancy: one of the three enumerated levels. -/
inductive Severity where
  | info
  | warning
  | critical
deriving DecidableEq, Repr

/-- Modelled from the spec: a line item of an invoice,
{description, quantity, unit price, amount}. -/
structure LineItem where
  description : String
  quantity : Option Int
  unit_price : Option Int
  amount : Option Int
deriving DecidableEq, Repr

/-- Modelled from the spec: the structured invoice record produced by the
extraction collaborator (vendor name, invoice number, PO number, dates,
payment terms, line items, totals, currency); consumed read-only by the
engine.  Dates are modelled as epoch days, monetary amounts as integers. -/
structure InvoiceRecord where
  vendor_name : Option String
  invoice_number : Option String
  po_number : Option String
  invoice_date : Option Nat
  due_date : Option Nat
  payment_terms : Option String
  line_items : List LineItem
  subtotal : Option Int
  tax : Option Int
  total : Option Int
  currency : Option String
  vendor_tax_id : Option String
deriving DecidableEq, Repr

/-- Modelled from the spec: a candidate contract returned by retrieval — an
identifier, retrieval score, and the derived text spans (vendor name,
effective date range, contract/PO number, payment-terms text, totals,
normalized vendor identifier). -/
structure ContractCandidate where
  id : String
  score : Int
  vendor_name : Option String
  effective_start : Option Nat
  effective_end : Option Nat
  contract_number : Option String
  po_number : Option String
  payment_terms : Option String
  total : Option Int
  vendor_tax_id : Option String
  text : String
deriving DecidableEq, Repr

/-- Modelled from the spec: the tagged match outcome —
`Matched{contract_id, confidence, rationale}` or `NoMatch{rationale}`.
Confidence is a rational in [0,1]; 0 means "matched but confidence unknown". -/
inductive MatchOutcome where
  | Matched (contract_id : String) (confidence : ℚ) (rationale : String)
  | NoMatch (rationale : String)
deriving DecidableEq, Repr

/-- Whether an outcome is the `NoMatch` variant. -/
def MatchOutcome.isNoMatch : MatchOutcome → Bool
  | .NoMatch _ => true
  | .Matched _ _ _ => false

/-- Modelled from the spec: a single field-level discrepancy
{field, invoice_value, contract_value, note, severity}. -/
structure Discrepancy where
  field : String
  invoice_value : Option String
  contract_value : Option String
  note : Option String
  severity : Severity
deriving DecidableEq, Repr

/-- Modelled from the spec: the unit of storage — invoice fields plus
{match_outcome, discrepancies, file_hash, reconciled_at}. -/
structure ReconciliationRecord where
  invoice : InvoiceRecord
  match_outcome : MatchOutcome
  discrepancies : List Discrepancy
  file_hash : String
  reconciled_at : Nat
deriving DecidableEq, Repr

/-! ## Deduplicating store (§4.5)

Modelled from the spec: Agent Data holds one slot per stored record; `upsert`
looks up any existing slot with the record's file hash, structurally replaces
it in place (same slot identifier reused) when found, and otherwise creates a
fresh slot. -/

/-- A store: a sequence of (slot identifier, record) pairs plus the next
fresh slot identifier. -/
structure Store where
  slots : List (Nat × ReconciliationRecord)
  nextId : Nat
deriving Repr

/-- Does a slot hold a record with the given file hash? -/
def slotMatches (h : String) (p : Nat × ReconciliationRecord) : Bool :=
  p.2.file_hash == h

/-- Look up the slot (if any) holding a record with the given file hash. -/
def findSlot (s : Store) (h : String) : Option (Nat × ReconciliationRecord) :=
  s.slots.find? (slotMatches h)

/-- Replace the payload of a slot whose record carries the given file hash. -/
def replaceSlot (h : String) (r : ReconciliationRecord)
    (p : Nat × ReconciliationRecord) : Nat × ReconciliationRecord :=
  if p.2.file_hash == h then (p.1, r) else p

/-- Modelled from the spec: `upsert(record) -> stored identifier`.  If a slot
with the record's file hash exists, the new record structurally replaces it in
the same storage slot (identifier reused); otherwise a new slot is created. -/
def upsert (s : Store) (r : ReconciliationRecord) : Store × Nat :=
  match findSlot s r.file_hash with
  | some (i, _) =>
      ({ slots := s.slots.map (replaceSlot r.file_hash r), nextId := s.nextId }, i)
  | none =>
      ({ slots := s.slots ++ [(s.nextId, r)], nextId := s.nextId + 1 }, s.nextId)

/-- All stored records carrying the given file hash. -/
def recordsFor (s : Store) (h : String) : List ReconciliationRecord :=
  (s.slots.filter (slotMatches h)).map (·.2)

/-- All stored records. -/
def storedRecords (s : Store) : List ReconciliationRecord :=
  s.slots.map (·.2)

/-- Store well-formedness: file hashes are pairwise distinct (the spec's
one-record-per-hash invariant), slot identifiers are pairwise distinct, and
every slot identifier is below the next fresh identifier. -/
def WF (s : Store) : Prop :=
  (s.slots.map (fun p => p.2.file_hash)).Nodup ∧
  (s.slots.map (·.1)).Nodup ∧
  ∀ p ∈ s.slots, p.1 < s.nextId

/-- The empty store. -/
def emptyStore : Store := { slots := [], nextId := 0 }

/-! ## Match adjudicator (§4.2)

Modelled from the spec: the reasoning call is a capability-abstracted
collaborator `reason(request) -> response`; the engine owns the request
construction, the fixed output contract, and all validation/fallback logic.
`adjudicate` also returns the number of reasoning calls it issued, so that
the call-count assertions of §8 are expressible. -/

/-- Modelled from the spec: the single reasoning request, containing the
invoice's identifying fields and, for every candidate, its identifying
fields/text. -/
structure ReasonRequest where
  invoice : InvoiceRecord
  candidates : List ContractCandidate
deriving DecidableEq, Repr

/-- Modelled from the spec: the fixed output contract of the reasoning call —
either a candidate identifier with confidence and rationale, an explicit
"none" with rationale, or a response whose shape is malformed. -/
inductive ReasonResponse where
  | choice (contract_id : String) (confidence : Option ℚ) (rationale : String)
  | noneOf (rationale : String)
  | malformed (raw : String)
deriving DecidableEq, Repr

/-- Build the reasoning request from the invoice and the candidates. -/
def mkRequest (inv : InvoiceRecord) (cands : List ContractCandidate) :
    ReasonRequest :=
  { invoice := inv, candidates := cands }

/-- The rationale note prepended to every validation-failure `NoMatch`. -/
def validationFailureNote : String := "invalid adjudication response: "

/-- Modelled from the spec: schema validation of a reasoning response.  A
response outside the contract (unknown identifier, missing confidence,
confidence outside [0,1], malformed shape) becomes `NoMatch` with a rationale
describing the validation failure, never a guessed match. -/
def validateResponse (cands : List ContractCandidate) (resp : ReasonResponse) :
    MatchOutcome :=
  match resp with
  | .choice cid conf rat =>
      match conf with
      | none => .NoMatch (validationFailureNote ++ "missing confidence")
      | some c =>
          if (cands.map ContractCandidate.id).contains cid then
            if 0 ≤ c ∧ c ≤ 1 then .Matched cid c rat
            else .NoMatch (validationFailureNote ++ "confidence out of range")
          else .NoMatch (validationFailureNote ++ "unknown contract identifier")
  | .noneOf rat => .NoMatch rat
  | .malformed _ => .NoMatch (validationFailureNote ++ "malformed response")

/-- Does a reasoning response satisfy the fixed output contract? -/
def responseValid (cands : List ContractCandidate) (resp : ReasonResponse) :
    Bool :=
  match resp with
  | .choice cid conf _ =>
      match conf with
      | none => false
      | some c =>
          (cands.map ContractCandidate.id).contains cid &&
            decide (0 ≤ c) && decide (c ≤ 1)
  | .noneOf _ => true
  | .malformed _ => false

/-- Modelled from the spec: `adjudicate(invoice, candidates) -> MatchOutcome`.
If `candidates` is empty, returns `NoMatch` with rationale "no candidate
contracts retrieved" without invoking any reasoning call; otherwise issues one
reasoning call and validates its response.  The second component counts the
reasoning calls issued. -/
def adjudicate (inv : InvoiceRecord) (cands : List ContractCandidate)
    (reason : ReasonRequest → ReasonResponse) : MatchOutcome × Nat :=
  if cands.isEmpty then
    (.NoMatch "no candidate contracts retrieved", 0)
  else
    (validateResponse cands (reason (mkRequest inv cands)), 1)

/-! ## Discrepancy comparator (§4.3)

Modelled from the spec: deterministic checks run first in a fixed field order
(payment terms, totals, vendor identifier); reasoning-sourced discrepancies
follow in the order received, and any reasoning discrepancy whose field was
already deterministically decided is dropped in favor of the deterministic
result. -/

/-- Case- and whitespace-insensitive normalization of an identifier. -/
def normalizeId (s : String) : String :=
  String.mk (s.toLower.data.filter (fun c => !c.isWhitespace))

/-- Modelled from the spec: the minimum required payment-terms check —
absence of comparable payment-terms text on either side is itself a
critical-severity discrepancy, not a skip. -/
def paymentTermsCheck (inv : InvoiceRecord) (c : ContractCandidate) :
    Option Discrepancy :=
  match inv.payment_terms, c.payment_terms with
  | some a, some b =>
      if a = b then none
      else some { field := "payment_terms", invoice_value := some a,
                  contract_value := some b, note := none, severity := .critical }
  | a, b =>
      some { field := "payment_terms", invoice_value := a, contract_value := b,
             note := some "missing payment terms", severity := .critical }

/-- Modelled from the spec: tolerance-free exact totals comparison, run only
when both sides expose a parsable number. -/
def totalCheck (inv : InvoiceRecord) (c : ContractCandidate) :
    Option Discrepancy :=
  match inv.total, c.total with
  | some a, some b =>
      if a = b then none
      else some { field := "total", invoice_value := some (toString a),
                  contract_value := some (toString b), note := none,
                  severity := .warning }
  | _, _ => none

/-- Modelled from the spec: case- and whitespace-insensitive vendor-identifier
comparison, run only when both sides expose a normalized identifier. -/
def vendorIdCheck (inv : InvoiceRecord) (c : ContractCandidate) :
    Option Discrepancy :=
  match inv.vendor_tax_id, c.vendor_tax_id with
  | some a, some b =>
      if normalizeId a = normalizeId b then none
      else some { field := "vendor_id", invoice_value := some a,
                  contract_value := some b, note := none, severity := .warning }
  | _, _ => none

/-- The fixed field order of the deterministic checks. -/
def deterministicFieldOrder : List String :=
  ["payment_terms", "total", "vendor_id"]

/-- The deterministic discrepancies, in the fixed field order. -/
def deterministicChecks (inv : InvoiceRecord) (c : ContractCandidate) :
    List Discrepancy :=
  (paymentTermsCheck inv c).toList ++ (totalCheck inv c).toList ++
    (vendorIdCheck inv c).toList

/-- The fields already deterministically decided: payment terms always; totals
and the vendor identifier whenever both sides expose them. -/
def decidedFields (inv : InvoiceRecord) (c : ContractCandidate) : List String :=
  "payment_terms" ::
    ((if inv.total.isSome && c.total.isSome then ["total"] else []) ++
      (if inv.vendor_tax_id.isSome && c.vendor_tax_id.isSome then ["vendor_id"]
       else []))

/-- Modelled from the spec: `compare(invoice, matched_contract)` plus the
reasoning-sourced discrepancies received — deterministic checks first in the
fixed field order, then reasoning-sourced checks in the order received, with
fields already deterministically decided dropped. -/
def compare (inv : InvoiceRecord) (c : ContractCandidate)
    (reasonDiscrepancies : List Discrepancy) : List Discrepancy :=
  deterministicChecks inv c ++
    reasonDiscrepancies.filter (fun d => !(decidedFields inv c).contains d.field)

/-! ## Reconciliation record builder (§4.4) and storage step -/

/-- The diagnostic of the record builder's invariant violation. -/
def invariantViolationMsg : String :=
  "invariant violation: non-empty discrepancies with NoMatch outcome"

/-- Modelled from the spec: the pure record builder.  Its only fallible
behavior is propagating the invariant violation: a non-empty discrepancy
sequence together with a `NoMatch` outcome fails loudly.  `now` is the
caller-supplied timestamp. -/
def build (inv : InvoiceRecord) (outcome : MatchOutcome)
    (discrepancies : List Discrepancy) (file_hash : String) (now : Nat) :
    Except String ReconciliationRecord :=
  match outcome with
  | .NoMatch _ =>
      if discrepancies.isEmpty then
        .ok { invoice := inv, match_outcome := outcome,
              discrepancies := discrepancies, file_hash := file_hash,
              reconciled_at := now }
      else .error invariantViolationMsg
  | .Matched _ _ _ =>
      .ok { invoice := inv, match_outcome := outcome,
            discrepancies := discrepancies, file_hash := file_hash,
            reconciled_at := now }

/-- Modelled from the spec: the final pipeline step — build the record, then
persist it; on an invariant violation the run halts and nothing is persisted
(no store is produced). -/
def buildAndStore (store : Store) (inv : InvoiceRecord) (outcome : MatchOutcome)
    (discrepancies : List Discrepancy) (file_hash : String) (now : Nat) :
    Except String (Store × Nat) :=
  match build inv outcome discrepancies file_hash now with
  | .error e => .error e
  | .ok rec => .ok (upsert store rec)

/-! ## Sample data used by the witness theorems -/

/-- A sample extracted invoice. -/
def sampleInvoice : InvoiceRecord :=
  { vendor_name := some "Acme Co", invoice_number := some "INV-1",
    po_number := some "PO-100", invoice_date := some 100, due_date := some 130,
    payment_terms := some "Net 30", line_items := [], subtotal := some 90,
    tax := some 10, total := some 100, currency := some "USD",
    vendor_tax_id := some "TAX-1" }

/-- A sample retrieved contract candidate. -/
def wCandidate : ContractCandidate :=
  { id := "c-1", score := 10, vendor_name := some "Acme Co",
    effective_start := some 50, effective_end := some 400,
    contract_number := some "CT-7", po_number := some "PO-100",
    payment_terms := some "Net 45", total := some 100,
    vendor_tax_id := some "TAX-1", text := "contract text" }

/-- A sample discrepancy. -/
def sampleDiscrepancy : Discrepancy :=
  { field := "payment_terms", invoice_value := some "Net 30",
    contract_value := some "Net 45", note := none, severity := .critical }

/-- A first sample reconciliation record. -/
def sampleRecordV1 : ReconciliationRecord :=
  { invoice := sampleInvoice,
    match_outcome := .NoMatch "no candidate contracts retrieved",
    discrepancies := [], file_hash := "hash-1", reconciled_at := 1 }

/-- A second sample record with the same file hash and different content. -/
def sampleRecordV2 : ReconciliationRecord :=
  { sampleRecordV1 with
    reconciled_at := 2,
    match_outcome := .Matched "c-1" 1 "strong vendor and PO alignment" }

/-- A reasoning collaborator answering with a known candidate, confidence 1. -/
def wReasonChoice : ReasonRequest → ReasonResponse :=
  fun _ => .choice "c-1" (some 1) "vendor and PO aligned"

/-- A reasoning collaborator answering with a known candidate, confidence
one half. -/
def wReasonHalf : ReasonRequest → ReasonResponse :=
  fun _ => .choice "c-1" (some (mkRat 1 2)) "aligned"

end InvoiceReconcile

namespace InvoiceUI

/-! ## UI embeddings

These definitions are translated from the TypeScript sources under
`ui/src/lib` (the `useMetadata` hook and `createClients`) and from the
`ContractsDropdown` component's `useContractsLoader` hook (its `loadContracts`
success path and `removeContract`). -/

/-- From `useMetadata.ts`: the metadata the UI consumes — the JSON Schema of
the stored record and the Agent Data collection name. -/
structure Metadata where
  json_schema : String
  extracted_data_collection : String
deriving DecidableEq, Repr

/-- Modelled from the spec: the JSON Schema for `InvoiceWithReconciliation`
that the metadata workflow returns; its exact text is opaque here. -/
def reconciliationRecordSchema : String :=
  "json schema of InvoiceWithReconciliation"

/-- Modelled from the spec: the engine's explicit configuration value
(collection names, schema selection), passed in at construction. -/
structure EngineConfig where
  extracted_data_collection : String
deriving DecidableEq, Repr

/-- Modelled from the spec: the `metadata` workflow
(`src/extraction_review/metadata_workflow.py`, absent from this snapshot;
per the README it returns the JSON Schema for `InvoiceWithReconciliation`
and the Agent Data collection name from the configuration). -/
def metadataWorkflow (cfg : EngineConfig) : Metadata :=
  { json_schema := reconciliationRecordSchema,
    extracted_data_collection := cfg.extracted_data_collection }

/-- From `client.ts`: the agent-data client, carrying the collection it was
created for. -/
structure AgentDataClient where
  collection : String
deriving DecidableEq, Repr

/-- From `client.ts`: the bundle of clients handed to the UI. -/
structure ApiClients where
  agentDataClient : AgentDataClient
deriving DecidableEq, Repr

/-- From `client.ts`: `createClients(metadata)` builds the agent-data client
with `collection: metadata.extracted_data_collection`. -/
def createClients (metadata : Metadata) : ApiClients :=
  { agentDataClient := { collection := metadata.extracted_data_collection } }

/-- From `llama-cloud-services/api`: the document shape the dropdown lists —
an identifier plus display metadata. -/
structure CloudDocument where
  id : String
  filename : String
deriving DecidableEq, Repr

/-- From the paginated list endpoint: a page of documents plus the total
count reported by the service. -/
structure PageResponse where
  total_count : Nat
  documents : List CloudDocument
deriving DecidableEq, Repr

/-- From `ContractsDropdown`: `const LIMIT = 20`. -/
def LIMIT : Nat := 20

/-- The state held by `useContractsLoader`: loaded contracts, the displayed
total (null until a page loads), the pagination offset, and `hasMore`. -/
structure LoaderState where
  contracts : List CloudDocument
  total : Option Int
  offset : Nat
  hasMore : Bool
deriving DecidableEq, Repr

/-- Initial loader state: `contracts = []`, `total = null`, `offset = 0`,
`hasMore = true`. -/
def initialLoaderState : LoaderState :=
  { contracts := [], total := none, offset := 0, hasMore := true }

/-- The query of the paginated request issued by `loadContracts`. -/
structure PageRequest where
  req_offset : Nat
  req_limit : Nat
deriving DecidableEq, Repr

/-- From `useContractsLoader.loadContracts`: the request uses
`offset: reset ? 0 : offset` and `limit: LIMIT`. -/
def loadRequest (s : LoaderState) (reset : Bool) : PageRequest :=
  { req_offset := if reset then 0 else s.offset, req_limit := LIMIT }

/-- From `useContractsLoader.loadContracts`, the `response.data` success path:
sets `total` from `total_count`, appends (or on reset replaces) the returned
documents, advances `offset` by the number of documents returned, and sets
`hasMore` to `currentOffset + documents.length < total_count`. -/
def loadContracts (s : LoaderState) (reset : Bool) (resp : PageResponse) :
    LoaderState :=
  let currentOffset := if reset then 0 else s.offset
  { contracts := if reset then resp.documents else s.contracts ++ resp.documents,
    total := some (Int.ofNat resp.total_count),
    offset := currentOffset + resp.documents.length,
    hasMore := decide (currentOffset + resp.documents.length < resp.total_count) }

/-- From `useContractsLoader.removeContract`: filters out the documents whose
`id` equals the given id and decrements a known total by one
(`prev !== null ? prev - 1 : null`). -/
def removeContract (s : LoaderState) (id : String) : LoaderState :=
  { s with
    contracts := s.contracts.filter (fun doc => doc.id != id),
    total := match s.total with
      | some t => some (t - 1)
      | none => none }

/-- A sample loader state holding three loaded contracts. -/
def wLoaderState : LoaderState :=
  { contracts := [{ id := "a", filename := "f1" }, { id := "b", filename := "f2" },
                  { id := "a", filename := "f3" }],
    total := some 3, offset := 3, hasMore := false }

/-- A sample loader state part way through pagination. -/
def wPagingState : LoaderState :=
  { contracts := [{ id := "a", filename := "f1" }, { id := "b", filename := "f2" }],
    total := some 5, offset := 2, hasMore := true }

/-- A sample page response. -/
def wPageResponse : PageResponse :=
  { total_count := 5, documents := [{ id := "c", filename := "f4" }] }

end InvoiceUI

namespace InvoiceReconcile

/-! ## Store lemmas -/

theorem WF_emptyStore : WF emptyStore := by
  refine ⟨List.nodup_nil, List.nodup_nil, ?_⟩
  intro p hp
  simp [emptyStore] at hp

theorem slotMatches_replaceSlot (r : ReconciliationRecord)
    (p : Nat × ReconciliationRecord) :
    slotMatches r.file_hash (replaceSlot r.file_hash r p) =
      slotMatches r.file_hash p := by
  unfold slotMatches replaceSlot
  split
  · next hcase => simp [hcase]
  · rfl

theorem filter_map_of_pred_preserving {α : Type} (f : α → α) (p : α → Bool)
    (hf : ∀ a, p (f a) = p a) (l : List α) :
    (l.map f).filter p = (l.filter p).map f := by
  induction l with
  | nil => rfl
  | cons a t ih =>
      simp only [List.map_cons, List.filter_cons, hf a]
      cases hp : p a <;> simp [ih]

theorem find?_map_of_pred_preserving {α : Type} (f : α → α) (p : α → Bool)
    (hf : ∀ a, p (f a) = p a) (l : List α) :
    (l.map f).find? p = (l.find? p).map f := by
  induction l with
  | nil => rfl
  | cons a t ih =>
      simp only [List.map_cons, List.find?_cons, hf a]
      cases hp : p a <;> simp [ih]

theorem find?_append_of_none {α : Type} (p : α → Bool) (l₁ l₂ : List α)
    (h : l₁.find? p = none) : (l₁ ++ l₂).find? p = l₂.find? p := by
  induction l₁ with
  | nil => rfl
  | cons a t ih =>
      rw [List.find?_cons] at h
      rw [List.cons_append, List.find?_cons]
      cases hp : p a
      · simp only [hp] at h ⊢
        exact ih h
      · simp [hp] at h

theorem filter_eq_single_of_nodup_hash
    (l : List (Nat × ReconciliationRecord)) (h : String)
    (hnd : (l.map (fun p => p.2.file_hash)).Nodup)
    (a : Nat × ReconciliationRecord) (ha : l.find? (slotMatches h) = some a) :
    l.filter (slotMatches h) = [a] := by
  induction l with
  | nil => simp at ha
  | cons b t ih =>
      rw [List.find?_cons] at ha
      rw [List.filter_cons]
      simp only [List.map_cons, List.nodup_cons] at hnd
      cases hp : slotMatches h b
      · simp only [hp] at ha ⊢
        exact ih hnd.2 ha
      · simp only [hp] at ha ⊢
        cases ha
        have htail : t.filter (slotMatches h) = [] := by
          rw [List.filter_eq_nil_iff]
          intro x hx hmatch
          have hxh : x.2.file_hash = h := by
            simpa [slotMatches] using hmatch
          have hah : a.2.file_hash = h := by
            simpa [slotMatches] using hp
          exact hnd.1 (by rw [hah, ← hxh]; exact List.mem_map.2 ⟨x, hx, rfl⟩)
        simp [htail]

theorem upsert_of_found (s : Store) (r : ReconciliationRecord) (i : Nat)
    (rec : ReconciliationRecord)
    (hfind : findSlot s r.file_hash = some (i, rec)) :
    upsert s r =
      ({ slots := s.slots.map (replaceSlot r.file_hash r), nextId := s.nextId }, i) := by
  unfold upsert
  rw [hfind]

theorem upsert_of_not_found (s : Store) (r : ReconciliationRecord)
    (hfind : findSlot s r.file_hash = none) :
    upsert s r =
      ({ slots := s.slots ++ [(s.nextId, r)], nextId := s.nextId + 1 }, s.nextId) := by
  unfold upsert
  rw [hfind]

theorem recordsFor_upsert_self (s : Store) (r : ReconciliationRecord)
    (hWF : WF s) : recordsFor (upsert s r).1 r.file_hash = [r] := by
  cases hfind : findSlot s r.file_hash with
  | none =>
      rw [upsert_of_not_found s r hfind]
      unfold recordsFor
      rw [List.filter_append]
      have h1 : s.slots.filter (slotMatches r.file_hash) = [] := by
        rw [List.filter_eq_nil_iff]
        intro x hx hmatch
        exact absurd hmatch (List.find?_eq_none.1 hfind x hx)
      have h2 : [(s.nextId, r)].filter (slotMatches r.file_hash) = [(s.nextId, r)] := by
        simp [slotMatches]
      rw [h1, h2]
      simp
  | some a =>
      obtain ⟨i, rec⟩ := a
      rw [upsert_of_found s r i rec hfind]
      unfold recordsFor
      simp only
      rw [filter_map_of_pred_preserving _ _ (slotMatches_replaceSlot r)]
      rw [filter_eq_single_of_nodup_hash s.slots r.file_hash hWF.1 (i, rec) hfind]
      have hmatch : rec.file_hash = r.file_hash := by
        have := List.find?_some hfind
        simpa [slotMatches] using this
      simp [replaceSlot, hmatch]

theorem findSlot_upsert (s : Store) (r : ReconciliationRecord) :
    findSlot (upsert s r).1 r.file_hash = some ((upsert s r).2, r) := by
  cases hfind : findSlot s r.file_hash with
  | none =>
      rw [upsert_of_not_found s r hfind]
      unfold findSlot
      simp only
      rw [find?_append_of_none _ _ _ hfind]
      simp [List.find?_cons, slotMatches]
  | some a =>
      obtain ⟨i, rec⟩ := a
      rw [upsert_of_found s r i rec hfind]
      unfold findSlot
      simp only
      rw [find?_map_of_pred_preserving _ _ (slotMatches_replaceSlot r)]
      have hfind' : s.slots.find? (slotMatches r.file_hash) = some (i, rec) := hfind
      rw [hfind']
      have hmatch : rec.file_hash = r.file_hash := by
        have := List.find?_some hfind
        simpa [slotMatches] using this
      simp [replaceSlot, hmatch]

theorem replaceSlot_fst (h : String) (r : ReconciliationRecord)
    (p : Nat × ReconciliationRecord) : (replaceSlot h r p).1 = p.1 := by
  unfold replaceSlot
  split <;> rfl

theorem replaceSlot_hash (r : ReconciliationRecord)
    (p : Nat × ReconciliationRecord) :
    (replaceSlot r.file_hash r p).2.file_hash = p.2.file_hash := by
  unfold replaceSlot
  split
  · next hc =>
      simp only
      have : p.2.file_hash = r.file_hash := by simpa using hc
      exact this.symm
  · rfl

theorem WF_upsert (s : Store) (r : ReconciliationRecord) (hWF : WF s) :
    WF (upsert s r).1 := by
  obtain ⟨hhash, hid, hlt⟩ := hWF
  cases hfind : findSlot s r.file_hash with
  | none =>
      rw [upsert_of_not_found s r hfind]
      refine ⟨?_, ?_, ?_⟩
      · rw [List.map_append, List.nodup_append]
        refine ⟨hhash, by simp, ?_⟩
        intro x hx1 hx2
        simp only [List.map_cons, List.map_nil, List.mem_singleton] at hx2
        obtain ⟨p, hp, hph⟩ := List.mem_map.1 hx1
        have hne := List.find?_eq_none.1 hfind p hp
        apply hne
        simp [slotMatches, hph, hx2]
      · rw [List.map_append, List.nodup_append]
        refine ⟨hid, by simp, ?_⟩
        intro x hx1 hx2
        simp only [List.map_cons, List.map_nil, List.mem_singleton] at hx2
        obtain ⟨p, hp, hph⟩ := List.mem_map.1 hx1
        have := hlt p hp
        omega
      · intro p hp
        simp only [List.mem_append, List.mem_singleton] at hp
        cases hp with
        | inl hmem => exact Nat.lt_succ_of_lt (hlt p hmem)
        | inr heq => simp [heq]
  | some a =>
      obtain ⟨i, rec⟩ := a
      rw [upsert_of_found s r i rec hfind]
      refine ⟨?_, ?_, ?_⟩
      · have heq : (s.slots.map (replaceSlot r.file_hash r)).map (fun p => p.2.file_hash) =
            s.slots.map (fun p => p.2.file_hash) := by
          rw [List.map_map]
          congr 1
          funext p
          simp only [Function.comp]
          exact replaceSlot_hash r p
        simpa [heq] using hhash
      · have heq : (s.slots.map (replaceSlot r.file_hash r)).map (·.1) =
            s.slots.map (·.1) := by
          rw [List.map_map]
          congr 1
          funext p
          simp only [Function.comp]
          exact replaceSlot_fst r.file_hash r p
        simpa [heq] using hid
      · intro p hp
        simp only at hp
        obtain ⟨q, hq, hqe⟩ := List.mem_map.1 hp
        have h1 : p.1 = q.1 := by rw [← hqe]; exact replaceSlot_fst _ _ q
        simp only
        rw [h1]
        exact hlt q hq

theorem mem_recordsFor_of_hash (t : Store) (p : Nat × ReconciliationRecord)
    (hp : p ∈ t.slots) (h : String) (hph : p.2.file_hash = h) :
    p.2 ∈ recordsFor t h :=
  List.mem_map.2 ⟨p, List.mem_filter.2 ⟨hp, by simp [slotMatches, hph]⟩, rfl⟩

theorem count_map_filter_hash (l : List (Nat × ReconciliationRecord))
    (r : ReconciliationRecord) :
    ((l.filter (slotMatches r.file_hash)).map (·.2)).count r =
      (l.map (·.2)).count r := by
  induction l with
  | nil => rfl
  | cons a t ih =>
      rw [List.filter_cons]
      cases hp : slotMatches r.file_hash a
      · have hne : a.2 ≠ r := by
          intro he
          apply absurd hp
          simp [slotMatches, he]
        simp [List.count_cons, ih, hne]
      · simp [List.count_cons, ih]

end InvoiceReconcile

namespace InvoiceReconcile

/-! ## Adjudicator lemmas -/

theorem adjudicate_nonempty (inv : InvoiceRecord) (cands : List ContractCandidate)
    (reason : ReasonRequest → ReasonResponse) (h : cands ≠ []) :
    adjudicate inv cands reason =
      (validateResponse cands (reason (mkRequest inv cands)), 1) := by
  unfold adjudicate
  rw [if_neg]
  simp [List.isEmpty_iff, h]

theorem validateResponse_matched (cands : List ContractCandidate)
    (resp : ReasonResponse) (id : String) (c : ℚ) (rat : String)
    (h : validateResponse cands resp = .Matched id c rat) :
    id ∈ cands.map ContractCandidate.id ∧ 0 ≤ c ∧ c ≤ 1 := by
  cases resp with
  | choice cid conf rat' =>
      cases conf with
      | none => simp [validateResponse] at h
      | some c' =>
          simp only [validateResponse] at h
          split_ifs at h with hmem hrange
          · simp only [MatchOutcome.Matched.injEq] at h
            obtain ⟨h1, h2, h3⟩ := h
            subst h1
            subst h2
            refine ⟨?_, hrange.1, hrange.2⟩
            have hmem' : ∃ a ∈ cands, a.id = cid := by simpa using hmem
            obtain ⟨a, ha, haid⟩ := hmem'
            exact List.mem_map.2 ⟨a, ha, haid⟩
  | noneOf rat' => simp [validateResponse] at h
  | malformed raw => simp [validateResponse] at h

theorem validateResponse_invalid (cands : List ContractCandidate)
    (resp : ReasonResponse) (hval : responseValid cands resp = false) :
    ∃ msg, validateResponse cands resp = .NoMatch (validationFailureNote ++ msg) := by
  cases resp with
  | choice cid conf rat =>
      cases conf with
      | none => exact ⟨"missing confidence", rfl⟩
      | some c =>
          simp only [validateResponse]
          split_ifs with hmem hrange
          · exfalso
            simp only [responseValid] at hval
            rw [hmem] at hval
            simp [hrange.1, hrange.2] at hval
          · exact ⟨"confidence out of range", rfl⟩
          · exact ⟨"unknown contract identifier", rfl⟩
  | noneOf rat => simp [responseValid] at hval
  | malformed raw => exact ⟨"malformed response", rfl⟩

/-! ## Comparator lemmas -/

theorem paymentTermsCheck_field (inv : InvoiceRecord) (c : ContractCandidate)
    (d : Discrepancy) (h : paymentTermsCheck inv c = some d) :
    d.field = "payment_terms" := by
  unfold paymentTermsCheck at h
  split at h
  · split at h
    · simp at h
    · cases h
      rfl
  · cases h
    rfl

theorem totalCheck_field (inv : InvoiceRecord) (c : ContractCandidate)
    (d : Discrepancy) (h : totalCheck inv c = some d) : d.field = "total" := by
  unfold totalCheck at h
  split at h
  · split at h
    · simp at h
    · cases h
      rfl
  · simp at h

theorem vendorIdCheck_field (inv : InvoiceRecord) (c : ContractCandidate)
    (d : Discrepancy) (h : vendorIdCheck inv c = some d) :
    d.field = "vendor_id" := by
  unfold vendorIdCheck at h
  split at h
  · split at h
    · simp at h
    · cases h
      rfl
  · simp at h

theorem toList_map_field_sublist (o : Option Discrepancy) (f : String)
    (ho : ∀ d, o = some d → d.field = f) :
    (o.toList.map Discrepancy.field).Sublist [f] := by
  cases o with
  | none => simp
  | some d => simp [ho d rfl]

end InvoiceReconcile

namespace InvoiceReconcile

/-! ## Claim theorems: reconciliation engine -/

/-- C1: for every invocation of `adjudicate` with an empty candidate sequence,
the result is `NoMatch` with rationale "no candidate contracts retrieved", no
reasoning call is issued (the call count is 0), and — `adjudicate` being a
pure function that on this path never consults the reasoning collaborator —
the result is identical across repeated invocations on the same input. -/
theorem adjudicate_empty_fast_path (inv : InvoiceRecord)
    (reason : ReasonRequest → ReasonResponse) :
    adjudicate inv [] reason =
      (MatchOutcome.NoMatch "no candidate contracts retrieved", 0) ∧
    ∀ reason' : ReasonRequest → ReasonResponse,
      adjudicate inv [] reason = adjudicate inv [] reason' := by
  constructor
  · rfl
  · intro reason'
    rfl

/-- C4: every `Matched` outcome of `adjudicate` names an identifier from the
candidate sequence passed in, and a reasoning response outside the output
contract (unknown identifier, missing confidence, out-of-range confidence,
malformed shape) yields `NoMatch` with a rationale describing the validation
failure, never a guessed match. -/
theorem adjudicate_matched_sound (inv : InvoiceRecord)
    (cands : List ContractCandidate) (reason : ReasonRequest → ReasonResponse) :
    (∀ id c rat, (adjudicate inv cands reason).1 = .Matched id c rat →
        id ∈ cands.map ContractCandidate.id) ∧
    (cands ≠ [] → responseValid cands (reason (mkRequest inv cands)) = false →
        ∃ msg, (adjudicate inv cands reason).1 =
          .NoMatch (validationFailureNote ++ msg)) := by
  constructor
  · intro id c rat h
    by_cases hne : cands = []
    · subst hne
      simp [adjudicate] at h
    · rw [adjudicate_nonempty inv cands reason hne] at h
      exact (validateResponse_matched cands _ id c rat h).1
  · intro hne hval
    rw [adjudicate_nonempty inv cands reason hne]
    exact validateResponse_invalid cands _ hval

/-- Witness for C4: a concrete adjudication whose reasoning response names the
listed candidate produces `Matched`, and the chosen identifier is in the
candidate sequence. -/
theorem adjudicate_matched_sound_witness :
    (adjudicate sampleInvoice [wCandidate] wReasonChoice).1 =
      MatchOutcome.Matched "c-1" 1 "vendor and PO aligned" ∧
    "c-1" ∈ [wCandidate].map ContractCandidate.id :=
  ⟨by decide,
   (adjudicate_matched_sound sampleInvoice [wCandidate] wReasonChoice).1
     "c-1" 1 "vendor and PO aligned" (by decide)⟩

/-- C7: every `Matched` outcome produced by the adjudicator carries a
confidence in the closed interval [0,1], and a `Matched` outcome with
confidence 0 (matched but confidence unknown) is a distinct value from every
`NoMatch`. -/
theorem adjudicate_confidence_range (inv : InvoiceRecord)
    (cands : List ContractCandidate) (reason : ReasonRequest → ReasonResponse)
    (id : String) (c : ℚ) (rat : String)
    (h : (adjudicate inv cands reason).1 = .Matched id c rat) :
    0 ≤ c ∧ c ≤ 1 ∧
      ∀ rat' : String,
        MatchOutcome.Matched id 0 rat ≠ MatchOutcome.NoMatch rat' := by
  by_cases hne : cands = []
  · subst hne
    simp [adjudicate] at h
  · rw [adjudicate_nonempty inv cands reason hne] at h
    have hv := validateResponse_matched cands _ id c rat h
    exact ⟨hv.2.1, hv.2.2, fun rat' hcontr => MatchOutcome.noConfusion hcontr⟩

/-- Witness for C7: a concrete adjudication returns `Matched` with confidence
one half, which lies in [0,1]. -/
theorem adjudicate_confidence_range_witness :
    (adjudicate sampleInvoice [wCandidate] wReasonHalf).1 =
      MatchOutcome.Matched "c-1" (mkRat 1 2) "aligned" ∧
    (0 ≤ mkRat 1 2 ∧ mkRat 1 2 ≤ 1 ∧
      ∀ rat' : String,
        MatchOutcome.Matched "c-1" 0 "aligned" ≠ MatchOutcome.NoMatch rat') :=
  ⟨by decide,
   adjudicate_confidence_range sampleInvoice [wCandidate] wReasonHalf
     "c-1" (mkRat 1 2) "aligned" (by decide)⟩

/-- C5: the record builder is a pure function whose only failure is the
invariant violation — it fails exactly when the discrepancy sequence is
non-empty while the outcome is `NoMatch` — and on such a failure the storage
step halts with an error, persisting nothing (no store is produced). -/
theorem build_fails_iff_invariant_violation (store : Store)
    (inv : InvoiceRecord) (outcome : MatchOutcome)
    (discrepancies : List Discrepancy) (file_hash : String) (now : Nat) :
    ((∃ e, build inv outcome discrepancies file_hash now = .error e) ↔
      (outcome.isNoMatch = true ∧ discrepancies ≠ [])) ∧
    (outcome.isNoMatch = true → discrepancies ≠ [] →
      buildAndStore store inv outcome discrepancies file_hash now =
        .error invariantViolationMsg) := by
  constructor
  · constructor
    · rintro ⟨e, he⟩
      cases outcome with
      | Matched a b r => simp [build] at he
      | NoMatch r =>
          cases discrepancies with
          | nil => simp [build] at he
          | cons d t => exact ⟨rfl, by simp⟩
    · rintro ⟨hnm, hne⟩
      cases outcome with
      | Matched a b r => simp [MatchOutcome.isNoMatch] at hnm
      | NoMatch r =>
          cases discrepancies with
          | nil => exact absurd rfl hne
          | cons d t => exact ⟨invariantViolationMsg, by simp [build]⟩
  · intro hnm hne
    cases outcome with
    | Matched a b r => simp [MatchOutcome.isNoMatch] at hnm
    | NoMatch r =>
        cases discrepancies with
        | nil => exact absurd rfl hne
        | cons d t => simp [buildAndStore, build]

/-- Witness for C5: a concrete `NoMatch` outcome with one discrepancy makes
the storage step fail with the invariant-violation diagnostic. -/
theorem build_fails_iff_invariant_violation_witness :
    (MatchOutcome.NoMatch "no plausible match").isNoMatch = true ∧
    ([sampleDiscrepancy] ≠ ([] : List Discrepancy)) ∧
    buildAndStore emptyStore sampleInvoice (.NoMatch "no plausible match")
        [sampleDiscrepancy] "hash-1" 7 = .error invariantViolationMsg :=
  ⟨rfl, by simp,
   (build_fails_iff_invariant_violation emptyStore sampleInvoice
       (.NoMatch "no plausible match") [sampleDiscrepancy] "hash-1" 7).2
     rfl (by simp)⟩

/-- C6: `compare` is deterministic in its output ordering — being a pure
function, repeated invocations on the same invoice/contract pair return the
same sequence, which consists of the deterministic checks first, in the fixed
field order (payment terms, total, vendor identifier), followed by the
reasoning-sourced discrepancies as an order-preserving subsequence of the
order received. -/
theorem compare_order_stable (inv : InvoiceRecord) (c : ContractCandidate)
    (rs : List Discrepancy) :
    compare inv c rs =
      deterministicChecks inv c ++
        rs.filter (fun d => !(decidedFields inv c).contains d.field) ∧
    ((deterministicChecks inv c).map Discrepancy.field).Sublist
      deterministicFieldOrder ∧
    (rs.filter (fun d => !(decidedFields inv c).contains d.field)).Sublist rs := by
  refine ⟨rfl, ?_, List.filter_sublist rs⟩
  unfold deterministicChecks deterministicFieldOrder
  rw [List.map_append, List.map_append]
  have h1 := toList_map_field_sublist (paymentTermsCheck inv c) "payment_terms"
      (paymentTermsCheck_field inv c)
  have h2 := toList_map_field_sublist (totalCheck inv c) "total"
      (totalCheck_field inv c)
  have h3 := toList_map_field_sublist (vendorIdCheck inv c) "vendor_id"
      (vendorIdCheck_field inv c)
  exact List.Sublist.append (List.Sublist.append h1 h2) h3

/-- C2: upserting a record whose file hash equals that of a stored record
replaces the prior record in the same storage slot: after `upsert(v1)` then
`upsert(v2)` with the same file hash, exactly one record with that hash is
stored and it equals `v2`, the slot identifier is reused, well-formedness (one
record per hash) is preserved, and `v1` is not retrievable as a separate
entry. -/
theorem upsert_replaces_per_hash (s : Store) (v1 v2 : ReconciliationRecord)
    (hWF : WF s) (hh : v1.file_hash = v2.file_hash) :
    recordsFor (upsert (upsert s v1).1 v2).1 v2.file_hash = [v2] ∧
    (upsert (upsert s v1).1 v2).2 = (upsert s v1).2 ∧
    WF (upsert (upsert s v1).1 v2).1 ∧
    (v1 ≠ v2 → v1 ∉ storedRecords (upsert (upsert s v1).1 v2).1) := by
  have hWF1 : WF (upsert s v1).1 := WF_upsert s v1 hWF
  have hfind1 : findSlot (upsert s v1).1 v2.file_hash =
      some ((upsert s v1).2, v1) := by
    rw [← hh]
    exact findSlot_upsert s v1
  refine ⟨recordsFor_upsert_self _ v2 hWF1, ?_, WF_upsert _ v2 hWF1, ?_⟩
  · rw [upsert_of_found _ v2 _ _ hfind1]
  · intro hne hmem
    unfold storedRecords at hmem
    obtain ⟨p, hp, hpe⟩ := List.mem_map.1 hmem
    have h1 : v1 ∈ recordsFor (upsert (upsert s v1).1 v2).1 v2.file_hash := by
      have hm := mem_recordsFor_of_hash _ p hp v2.file_hash
        (by rw [hpe]; exact hh)
      rwa [hpe] at hm
    rw [recordsFor_upsert_self _ v2 hWF1] at h1
    simp at h1
    exact hne h1

/-- Witness for C2: two sample records with the same file hash, upserted into
the empty store in order, leave exactly the second one stored under that
hash. -/
theorem upsert_replaces_per_hash_witness :
    WF emptyStore ∧ sampleRecordV1.file_hash = sampleRecordV2.file_hash ∧
    recordsFor (upsert (upsert emptyStore sampleRecordV1).1 sampleRecordV2).1
        sampleRecordV2.file_hash = [sampleRecordV2] :=
  ⟨WF_emptyStore, rfl,
   (upsert_replaces_per_hash emptyStore sampleRecordV1 sampleRecordV2
       WF_emptyStore rfl).1⟩

/-- C3: `upsert` is idempotent — after upserting the same record twice into a
well-formed store, exactly one stored record carries its file hash, it equals
the input record, and the input occurs exactly once among all stored
records. -/
theorem upsert_idempotent (s : Store) (r : ReconciliationRecord) (hWF : WF s) :
    recordsFor (upsert (upsert s r).1 r).1 r.file_hash = [r] ∧
    (storedRecords (upsert (upsert s r).1 r).1).count r = 1 := by
  have hWF1 : WF (upsert s r).1 := WF_upsert s r hWF
  have h1 : recordsFor (upsert (upsert s r).1 r).1 r.file_hash = [r] :=
    recordsFor_upsert_self _ r hWF1
  refine ⟨h1, ?_⟩
  unfold storedRecords
  rw [← count_map_filter_hash]
  unfold recordsFor at h1
  rw [h1]
  simp

/-- Witness for C3: upserting the sample record twice into the empty store
leaves exactly that record stored under its hash. -/
theorem upsert_idempotent_witness :
    WF emptyStore ∧
    recordsFor (upsert (upsert emptyStore sampleRecordV1).1 sampleRecordV1).1
        sampleRecordV1.file_hash = [sampleRecordV1] :=
  ⟨WF_emptyStore,
   (upsert_idempotent emptyStore sampleRecordV1 WF_emptyStore).1⟩

end InvoiceReconcile

namespace InvoiceUI

/-! ## Claim theorems: UI -/

/-- C8: a successful run of the metadata workflow yields both the JSON Schema
of the stored record and the storage collection name, and `createClients`
builds the agent-data client from the returned collection name
(`metadata.extracted_data_collection`) for every metadata value — not from a
hardcoded collection. -/
theorem metadata_drives_agent_client (cfg : EngineConfig) :
    (metadataWorkflow cfg).json_schema = reconciliationRecordSchema ∧
    (metadataWorkflow cfg).extracted_data_collection =
      cfg.extracted_data_collection ∧
    ∀ m : Metadata,
      (createClients m).agentDataClient.collection =
        m.extracted_data_collection :=
  ⟨rfl, rfl, fun _ => rfl⟩

/-- C9: after every completed page load, `hasMore` is true exactly when the
request offset plus the number of documents returned is strictly below the
reported `total_count`; the request always asks for `LIMIT = 20` documents,
and the offset advances to the fetched-so-far count. -/
theorem loadContracts_hasMore_exact (s : LoaderState) (reset : Bool)
    (resp : PageResponse) :
    ((loadContracts s reset resp).hasMore = true ↔
      (if reset then 0 else s.offset) + resp.documents.length <
        resp.total_count) ∧
    (loadRequest s reset).req_limit = LIMIT ∧ LIMIT = 20 ∧
    (loadContracts s reset resp).offset =
      (if reset then 0 else s.offset) + resp.documents.length := by
  refine ⟨?_, rfl, rfl, rfl⟩
  simp [loadContracts]

/-- Witness for C9: a concrete page load with 3 of 5 contracts fetched leaves
`hasMore` true. -/
theorem loadContracts_hasMore_exact_witness :
    ((if false then 0 else wPagingState.offset) +
        wPageResponse.documents.length < wPageResponse.total_count) ∧
    (loadContracts wPagingState false wPageResponse).hasMore = true :=
  ⟨by decide,
   ((loadContracts_hasMore_exact wPagingState false wPageResponse).1).2
     (by decide)⟩

/-- C10: `removeContract` removes exactly the loaded entries whose id equals
the given id, keeps all other entries unchanged and in their original relative
order, and decrements a known (non-null) displayed total by one, leaving a
null total null. -/
theorem removeContract_exact (s : LoaderState) (id : String) :
    ((removeContract s id).contracts).Sublist s.contracts ∧
    (∀ d, d ∈ (removeContract s id).contracts ↔
        d ∈ s.contracts ∧ d.id ≠ id) ∧
    (∀ d, d.id ≠ id →
      ((removeContract s id).contracts).count d = s.contracts.count d) ∧
    (∀ d, d.id = id → ((removeContract s id).contracts).count d = 0) ∧
    (removeContract s id).total = s.total.map (fun t => t - 1) := by
  refine ⟨List.filter_sublist _, ?_, ?_, ?_, ?_⟩
  · intro d
    simp [removeContract, List.mem_filter]
  · intro d hd
    have key : ∀ l : List CloudDocument,
        (l.filter (fun doc => doc.id != id)).count d = l.count d := by
      intro l
      induction l with
      | nil => rfl
      | cons a t ih =>
          rw [List.filter_cons]
          cases hp : (a.id != id)
          · have haid : a.id = id := by simpa using hp
            have hne : d ≠ a := fun he => hd (by rw [he]; exact haid)
            simp [List.count_cons, ih, hne]
          · simp [List.count_cons, ih]
    exact key s.contracts
  · intro d hd
    have hnotmem : d ∉ s.contracts.filter (fun doc => doc.id != id) := by
      intro hmem
      rw [List.mem_filter] at hmem
      have h2 := hmem.2
      simp [hd] at h2
    exact List.count_eq_zero.2 hnotmem
  · cases htot : s.total <;> simp [removeContract, htot]

/-- Witness for C10: removing id "a" from a concrete three-entry state keeps
the "b" entry's count and decrements the total to 2. -/
theorem removeContract_exact_witness :
    (CloudDocument.mk "b" "f2").id ≠ "a" ∧
    ((removeContract wLoaderState "a").contracts).count
        (CloudDocument.mk "b" "f2") =
      wLoaderState.contracts.count (CloudDocument.mk "b" "f2") ∧
    (removeContract wLoaderState "a").total = some 2 :=
  ⟨by decide,
   (removeContract_exact wLoaderState "a").2.2.1 (CloudDocument.mk "b" "f2")
     (by decide),
   ((removeContract_exact wLoaderState "a").2.2.2.2).trans (by decide)⟩

end InvoiceUI
